import Mathlib

/-!
Verification of the client-side aggregation and filtering engine of the
United-Pharmacy LMS dashboard.

The TypeScript source is shallowly embedded: training records become a Lean
structure (numeric fields as `ℚ`, dates as epoch-millisecond `ℤ`), the
insertion-ordered JavaScript object / `Map` accumulators become association
lists built by a fold, and `Array.prototype.sort` (stable per ES2019) becomes
a stable insertion sort driven by the source's numeric comparator.
-/

namespace LMS

/-- Course type enum from `types.ts` (`Mandatory` / `Optional`). -/
inductive CourseType where
  | mandatory
  | optional
deriving DecidableEq, Repr

/-- One row of input data, from `types.ts` (`TrainingRecord`).
`completionDate` is the epoch-millisecond timestamp of the JS `Date`. -/
structure TrainingRecord where
  id : ℕ
  traineeName : String
  email : String
  branch : String
  districtHead : String
  supervisor : String
  courseTitle : String
  completionRate : ℚ
  preAssessmentScore : ℚ
  postAssessmentScore : ℚ
  averageQuizScore : ℚ
  courseType : CourseType
  completionDate : ℤ
  trainingHours : ℚ
deriving DecidableEq, Repr

/-- The centralized filter state from `Dashboard.tsx` (`Filters`).
`timeStart`/`timeEnd` model `timePeriodFilter.start` / `timePeriodFilter.end`
(`end` is a Lean keyword); `none` is the JS `null`. -/
structure Filters where
  branchFilter : List String
  districtHeadFilter : List String
  supervisorFilter : List String
  courseFilter : List String
  courseTypeFilter : List CourseType
  timeStart : Option ℤ
  timeEnd : Option ℤ
deriving DecidableEq, Repr

/-- The initial filter state in `Dashboard.tsx`: every list empty, both date
bounds `null`. -/
def Filters.empty : Filters :=
  { branchFilter := []
    districtHeadFilter := []
    supervisorFilter := []
    courseFilter := []
    courseTypeFilter := []
    timeStart := none
    timeEnd := none }

/-- The per-record predicate of `filteredData` in `Dashboard.tsx`
(lines 98-109): each dimension passes when its selection is empty
(`length === 0`) or contains the record's field, and the date bounds pass
when absent (`!start`, `!end`) or satisfied. -/
def recordPasses (f : Filters) (item : TrainingRecord) : Bool :=
  (f.branchFilter.length = 0 || item.branch ∈ f.branchFilter)
    && (f.districtHeadFilter.length = 0 || item.districtHead ∈ f.districtHeadFilter)
    && (f.supervisorFilter.length = 0 || item.supervisor ∈ f.supervisorFilter)
    && (f.courseFilter.length = 0 || item.courseTitle ∈ f.courseFilter)
    && (f.courseTypeFilter.length = 0 || item.courseType ∈ f.courseTypeFilter)
    && (match f.timeStart with
        | none => true
        | some s => s ≤ item.completionDate)
    && (match f.timeEnd with
        | none => true
        | some e => item.completionDate ≤ e)

/-- The `filteredData` computation of `Dashboard.tsx`: `allData.filter(...)`. -/
def applyFilters (records : List TrainingRecord) (f : Filters) : List TrainingRecord :=
  records.filter (recordPasses f)

/-- The pass condition as the specification words it: for every dimension with
a non-empty selection the record's field is a member of that selection, and
the completion date respects each present bound. -/
def specPasses (f : Filters) (item : TrainingRecord) : Prop :=
  (f.branchFilter ≠ [] → item.branch ∈ f.branchFilter)
    ∧ (f.districtHeadFilter ≠ [] → item.districtHead ∈ f.districtHeadFilter)
    ∧ (f.supervisorFilter ≠ [] → item.supervisor ∈ f.supervisorFilter)
    ∧ (f.courseFilter ≠ [] → item.courseTitle ∈ f.courseFilter)
    ∧ (f.courseTypeFilter ≠ [] → item.courseType ∈ f.courseTypeFilter)
    ∧ (∀ s, f.timeStart = some s → s ≤ item.completionDate)
    ∧ (∀ e, f.timeEnd = some e → item.completionDate ≤ e)

instance (f : Filters) (item : TrainingRecord) : Decidable (specPasses f item) := by
  unfold specPasses
  infer_instance

theorem recordPasses_iff (f : Filters) (item : TrainingRecord) :
    recordPasses f item = true ↔ specPasses f item := by
  unfold recordPasses specPasses
  constructor
  · intro h
    simp only [Bool.and_eq_true, Bool.or_eq_true, decide_eq_true_eq,
      List.length_eq_zero] at h
    obtain ⟨⟨⟨⟨⟨⟨hb, hd⟩, hs⟩, hc⟩, ht⟩, hst⟩, hen⟩ := h
    refine ⟨?_, ?_, ?_, ?_, ?_, ?_, ?_⟩
    · intro hne
      exact (hb.resolve_left hne)
    · intro hne
      exact (hd.resolve_left hne)
    · intro hne
      exact (hs.resolve_left hne)
    · intro hne
      exact (hc.resolve_left hne)
    · intro hne
      exact (ht.resolve_left hne)
    · intro s hsome
      rw [hsome] at hst
      simpa using hst
    · intro e hsome
      rw [hsome] at hen
      simpa using hen
  · intro h
    obtain ⟨hb, hd, hs, hc, ht, hst, hen⟩ := h
    simp only [Bool.and_eq_true, Bool.or_eq_true, decide_eq_true_eq,
      List.length_eq_zero]
    refine ⟨⟨⟨⟨⟨⟨?_, ?_⟩, ?_⟩, ?_⟩, ?_⟩, ?_⟩, ?_⟩
    · by_cases hne : f.branchFilter = []
      · exact Or.inl hne
      · exact Or.inr (hb hne)
    · by_cases hne : f.districtHeadFilter = []
      · exact Or.inl hne
      · exact Or.inr (hd hne)
    · by_cases hne : f.supervisorFilter = []
      · exact Or.inl hne
      · exact Or.inr (hs hne)
    · by_cases hne : f.courseFilter = []
      · exact Or.inl hne
      · exact Or.inr (hc hne)
    · by_cases hne : f.courseTypeFilter = []
      · exact Or.inl hne
      · exact Or.inr (ht hne)
    · cases hval : f.timeStart with
      | none => simp
      | some s => simpa using hst s hval
    · cases hval : f.timeEnd with
      | none => simp
      | some e => simpa using hen e hval

theorem recordPasses_eq_decide (f : Filters) (item : TrainingRecord) :
    recordPasses f item = decide (specPasses f item) := by
  by_cases h : specPasses f item
  · rw [decide_eq_true h]
    exact (recordPasses_iff f item).mpr h
  · rw [decide_eq_false h]
    cases hb : recordPasses f item
    · rfl
    · exact absurd ((recordPasses_iff f item).mp hb) h

theorem recordPasses_empty (item : TrainingRecord) :
    recordPasses Filters.empty item = true := by
  simp [recordPasses, Filters.empty]

/-! ### Stable sort with a JS numeric comparator

`Array.prototype.sort(cmp)` is stable (ES2019).  We model it by insertion:
an element is placed before the first already-placed element `y` with
`cmp x y ≤ 0`, so earlier elements stay before later comparator-equal ones. -/

/-- Insert `x` before the first `y` with `cmp x y ≤ 0`. -/
def insertCmp (cmp : α → α → ℚ) (x : α) : List α → List α
  | [] => [x]
  | y :: ys => if cmp x y ≤ 0 then x :: y :: ys else y :: insertCmp cmp x ys

/-- Model of the stable `Array.prototype.sort` with numeric comparator `cmp`. -/
def sortCmp (cmp : α → α → ℚ) (l : List α) : List α :=
  l.foldr (insertCmp cmp) []

theorem mem_insertCmp (cmp : α → α → ℚ) (x : α) (l : List α) (z : α) :
    z ∈ insertCmp cmp x l ↔ z = x ∨ z ∈ l := by
  induction l with
  | nil => simp [insertCmp]
  | cons y ys ih =>
    by_cases h : cmp x y ≤ 0
    · simp only [insertCmp, if_pos h, List.mem_cons]
    · simp only [insertCmp, if_neg h, List.mem_cons, ih]
      tauto

theorem perm_insertCmp (cmp : α → α → ℚ) (x : α) (l : List α) :
    List.Perm (insertCmp cmp x l) (x :: l) := by
  induction l with
  | nil => rfl
  | cons y ys ih =>
    by_cases h : cmp x y ≤ 0
    · simp [insertCmp, h]
    · simp only [insertCmp, if_neg h]
      exact (ih.cons y).trans (List.Perm.swap x y ys)

theorem perm_sortCmp (cmp : α → α → ℚ) (l : List α) :
    List.Perm (sortCmp cmp l) l := by
  induction l with
  | nil => rfl
  | cons x xs ih =>
    simp only [sortCmp, List.foldr_cons]
    exact (perm_insertCmp cmp x _).trans (ih.cons x)

theorem pairwise_insertCmp (cmp : α → α → ℚ)
    (htot : ∀ a b, cmp a b ≤ 0 ∨ cmp b a ≤ 0)
    (htrans : ∀ a b c, cmp a b ≤ 0 → cmp b c ≤ 0 → cmp a c ≤ 0)
    (x : α) (l : List α) (hl : l.Pairwise (fun a b => cmp a b ≤ 0)) :
    (insertCmp cmp x l).Pairwise (fun a b => cmp a b ≤ 0) := by
  induction l with
  | nil => simp [insertCmp]
  | cons y ys ih =>
    rcases List.pairwise_cons.mp hl with ⟨hy, hys⟩
    by_cases h : cmp x y ≤ 0
    · simp only [insertCmp, if_pos h]
      refine List.pairwise_cons.mpr ⟨?_, hl⟩
      intro z hz
      rcases List.mem_cons.mp hz with rfl | hz'
      · exact h
      · exact htrans x y z h (hy z hz')
    · simp only [insertCmp, if_neg h]
      refine List.pairwise_cons.mpr ⟨?_, ih hys⟩
      intro z hz
      rcases (mem_insertCmp cmp x ys z).mp hz with rfl | hz'
      · exact (htot z y).resolve_left h
      · exact hy z hz'

theorem pairwise_sortCmp (cmp : α → α → ℚ)
    (htot : ∀ a b, cmp a b ≤ 0 ∨ cmp b a ≤ 0)
    (htrans : ∀ a b c, cmp a b ≤ 0 → cmp b c ≤ 0 → cmp a c ≤ 0)
    (l : List α) :
    (sortCmp cmp l).Pairwise (fun a b => cmp a b ≤ 0) := by
  induction l with
  | nil => simp [sortCmp]
  | cons x xs ih =>
    simp only [sortCmp, List.foldr_cons] at ih ⊢
    exact pairwise_insertCmp cmp htot htrans x _ ih

theorem filter_insertCmp (cmp : α → α → ℚ) (p : α → Bool)
    (hcomp : ∀ a b, p a = true → p b = true → cmp a b ≤ 0)
    (x : α) (l : List α) :
    (insertCmp cmp x l).filter p
      = if p x then x :: l.filter p else l.filter p := by
  induction l with
  | nil => cases hx : p x <;> simp [insertCmp, List.filter, hx]
  | cons y ys ih =>
    by_cases h : cmp x y ≤ 0
    · simp only [insertCmp, if_pos h]
      cases hx : p x <;> simp [List.filter_cons, hx]
    · simp only [insertCmp, if_neg h]
      cases hx : p x
      · rw [if_neg (by simp [hx])] at ih ⊢
        rw [List.filter_cons, List.filter_cons, ih]
      · have hpy : p y = false := by
          cases hy : p y
          · rfl
          · exact absurd (hcomp x y hx hy) h
        rw [if_pos hx] at ih
        rw [if_pos rfl, List.filter_cons, List.filter_cons, ih]
        simp [hpy]

theorem filter_sortCmp (cmp : α → α → ℚ) (p : α → Bool)
    (hcomp : ∀ a b, p a = true → p b = true → cmp a b ≤ 0)
    (l : List α) :
    (sortCmp cmp l).filter p = l.filter p := by
  induction l with
  | nil => rfl
  | cons x xs ih =>
    simp only [sortCmp, List.foldr_cons] at ih ⊢
    rw [filter_insertCmp cmp p hcomp x _, List.filter_cons]
    cases hx : p x <;> simp [hx, ih]

/-! ### Insertion-ordered keyed accumulation

The repeated source pattern
`if (!obj[k]) obj[k] = init; obj[k] = update(obj[k])` over a plain object or
`Map`, read back with `Object.entries` / `map.values()` (insertion order), is
modelled as a fold over an association list: a new key is appended at the end,
an existing key's value is updated in place. -/

/-- First-match lookup in an association list (`obj[key]`). -/
def lookupA [DecidableEq κ] (key : κ) : List (κ × β) → Option β
  | [] => none
  | (k, v) :: rest => if k = key then some v else lookupA key rest

/-- Update the value at `key` in place (first match). -/
def modifyA [DecidableEq κ] (key : κ) (f : β → β) : List (κ × β) → List (κ × β)
  | [] => []
  | (k, v) :: rest =>
    if k = key then (k, f v) :: rest else (k, v) :: modifyA key f rest

/-- One accumulation step for record `r`: create the group if absent, then
apply the per-record update. -/
def gstep [DecidableEq κ] (keyOf : ρ → κ) (init : ρ → β) (upd : ρ → β → β)
    (acc : List (κ × β)) (r : ρ) : List (κ × β) :=
  if (lookupA (keyOf r) acc).isSome then
    modifyA (keyOf r) (upd r) acc
  else
    acc ++ [(keyOf r, upd r (init r))]

/-- The whole `data.forEach(...)` accumulation loop, starting empty. -/
def groupFold [DecidableEq κ] (keyOf : ρ → κ) (init : ρ → β) (upd : ρ → β → β)
    (data : List ρ) : List (κ × β) :=
  data.foldl (gstep keyOf init upd) []

/-- Sequential application of the per-record update (`rs` in order). -/
def applyUpd (upd : ρ → β → β) (v : β) (rs : List ρ) : β :=
  rs.foldl (fun v r => upd r v) v

theorem lookupA_modifyA_self [DecidableEq κ] (key : κ) (f : β → β)
    (l : List (κ × β)) :
    lookupA key (modifyA key f l) = (lookupA key l).map f := by
  induction l with
  | nil => simp [lookupA, modifyA]
  | cons kv rest ih =>
    obtain ⟨k, v⟩ := kv
    by_cases h : k = key
    · simp [lookupA, modifyA, h]
    · simp [lookupA, modifyA, h, ih]

theorem lookupA_modifyA_ne [DecidableEq κ] (key key' : κ) (f : β → β)
    (l : List (κ × β)) (h : key' ≠ key) :
    lookupA key (modifyA key' f l) = lookupA key l := by
  induction l with
  | nil => simp [lookupA, modifyA]
  | cons kv rest ih =>
    obtain ⟨k, v⟩ := kv
    by_cases hk : k = key'
    · subst hk
      simp [lookupA, modifyA, h]
    · by_cases hk2 : k = key
      · simp [lookupA, modifyA, hk, hk2, Ne.symm h]
      · simp [lookupA, modifyA, hk, hk2, ih]

theorem lookupA_append_single [DecidableEq κ] (key k : κ) (v : β)
    (l : List (κ × β)) :
    lookupA key (l ++ [(k, v)])
      = match lookupA key l with
        | some w => some w
        | none => if k = key then some v else none := by
  induction l with
  | nil => simp [lookupA]
  | cons kv rest ih =>
    obtain ⟨k', v'⟩ := kv
    by_cases h : k' = key
    · simp [lookupA, h]
    · simp [lookupA, h, ih]

theorem lookupA_gstep [DecidableEq κ] (keyOf : ρ → κ) (init : ρ → β)
    (upd : ρ → β → β) (acc : List (κ × β)) (r : ρ) (key : κ) :
    lookupA key (gstep keyOf init upd acc r)
      = if keyOf r = key then
          some (match lookupA key acc with
                | some v => upd r v
                | none => upd r (init r))
        else lookupA key acc := by
  unfold gstep
  by_cases hk : keyOf r = key
  · subst hk
    cases h : lookupA (keyOf r) acc with
    | some v =>
      simp only [h, Option.isSome_some, if_true, if_pos rfl]
      rw [lookupA_modifyA_self, h]
      rfl
    | none =>
      simp only [h, Option.isSome_none, Bool.false_eq_true, if_false, if_pos rfl]
      rw [lookupA_append_single, h]
      simp
  · cases h : lookupA (keyOf r) acc with
    | some v =>
      simp only [h, Option.isSome_some, if_true, if_neg hk]
      exact lookupA_modifyA_ne _ _ _ _ hk
    | none =>
      simp only [h, Option.isSome_none, Bool.false_eq_true, if_false, if_neg hk]
      rw [lookupA_append_single]
      cases h2 : lookupA key acc <;> simp [hk]

theorem lookupA_foldl_gstep [DecidableEq κ] (keyOf : ρ → κ) (init : ρ → β)
    (upd : ρ → β → β) (data : List ρ) (acc : List (κ × β)) (key : κ) :
    lookupA key (data.foldl (gstep keyOf init upd) acc)
      = match lookupA key acc with
        | some v => some (applyUpd upd v (data.filter (fun r => keyOf r = key)))
        | none =>
          match data.filter (fun r => keyOf r = key) with
          | [] => none
          | r :: rs => some (applyUpd upd (upd r (init r)) rs) := by
  induction data generalizing acc with
  | nil =>
    cases h : lookupA key acc <;> simp [h, applyUpd]
  | cons r rest ih =>
    rw [List.foldl_cons, ih, lookupA_gstep]
    by_cases hk : keyOf r = key
    · rw [if_pos hk]
      cases h : lookupA key acc with
      | some v => simp [List.filter_cons, hk, applyUpd]
      | none => simp [List.filter_cons, hk, applyUpd]
    · rw [if_neg hk]
      cases h : lookupA key acc <;> simp [List.filter_cons, hk]

theorem lookupA_groupFold [DecidableEq κ] (keyOf : ρ → κ) (init : ρ → β)
    (upd : ρ → β → β) (data : List ρ) (key : κ) :
    lookupA key (groupFold keyOf init upd data)
      = match data.filter (fun r => keyOf r = key) with
        | [] => none
        | r :: rs => some (applyUpd upd (upd r (init r)) rs) := by
  rw [groupFold, lookupA_foldl_gstep]
  simp [lookupA]

theorem lookupA_isSome_iff [DecidableEq κ] (key : κ) (l : List (κ × β)) :
    (lookupA key l).isSome ↔ key ∈ l.map Prod.fst := by
  induction l with
  | nil => simp [lookupA]
  | cons kv rest ih =>
    obtain ⟨k, v⟩ := kv
    by_cases h : k = key
    · simp [lookupA, h]
    · simp [lookupA, h, ih, Ne.symm h]

theorem keysOf_modifyA [DecidableEq κ] (key : κ) (f : β → β)
    (l : List (κ × β)) :
    (modifyA key f l).map Prod.fst = l.map Prod.fst := by
  induction l with
  | nil => rfl
  | cons kv rest ih =>
    obtain ⟨k, v⟩ := kv
    by_cases h : k = key <;> simp [modifyA, h, ih]

theorem nodup_keys_gstep [DecidableEq κ] (keyOf : ρ → κ) (init : ρ → β)
    (upd : ρ → β → β) (acc : List (κ × β)) (r : ρ)
    (h : (acc.map Prod.fst).Nodup) :
    ((gstep keyOf init upd acc r).map Prod.fst).Nodup := by
  unfold gstep
  by_cases hs : (lookupA (keyOf r) acc).isSome
  · rw [if_pos hs, keysOf_modifyA]
    exact h
  · rw [if_neg hs]
    have hnotin : keyOf r ∉ acc.map Prod.fst := by
      intro hin
      exact hs ((lookupA_isSome_iff _ _).mpr hin)
    simp only [List.map_append, List.map_cons, List.map_nil]
    rw [List.nodup_append]
    refine ⟨h, List.nodup_singleton _, ?_⟩
    intro a ha hb
    rcases List.mem_singleton.mp hb with rfl
    exact hnotin ha

theorem nodup_keys_groupFold [DecidableEq κ] (keyOf : ρ → κ) (init : ρ → β)
    (upd : ρ → β → β) (data : List ρ) :
    ((groupFold keyOf init upd data).map Prod.fst).Nodup := by
  rw [groupFold]
  have haux : ∀ acc : List (κ × β), (acc.map Prod.fst).Nodup →
      ((data.foldl (gstep keyOf init upd) acc).map Prod.fst).Nodup := by
    induction data with
    | nil => intro acc h; exact h
    | cons r rest ih =>
      intro acc h
      rw [List.foldl_cons]
      exact ih _ (nodup_keys_gstep keyOf init upd acc r h)
  exact haux [] (by simp)

theorem mem_iff_lookupA [DecidableEq κ] (l : List (κ × β))
    (hnd : (l.map Prod.fst).Nodup) (k : κ) (v : β) :
    (k, v) ∈ l ↔ lookupA k l = some v := by
  induction l with
  | nil => simp [lookupA]
  | cons kv rest ih =>
    obtain ⟨k', v'⟩ := kv
    simp only [List.map_cons, List.nodup_cons] at hnd
    obtain ⟨hk'not, hndrest⟩ := hnd
    by_cases h : k' = k
    · subst h
      simp only [lookupA, List.mem_cons, Option.some.injEq, Prod.mk.injEq,
        true_and, eq_self_iff_true, if_true]
      constructor
      · rintro (heq | hmem)
        · exact heq.symm
        · exact absurd (List.mem_map.mpr ⟨(k', v), hmem, rfl⟩) hk'not
      · intro hv
        exact Or.inl hv.symm
    · simp only [lookupA, if_neg h, List.mem_cons, Prod.mk.injEq]
      rw [← ih hndrest]
      constructor
      · rintro (⟨heq, _⟩ | hmem)
        · exact absurd heq.symm h
        · exact hmem
      · exact Or.inr

/-- A guarded `forEach` body (`if (cond) { ...accumulate... }`) equals the
unguarded accumulation over the pre-filtered list. -/
theorem foldl_guarded {σ : Type _} (g : ρ → Bool) (f : σ → ρ → σ)
    (data : List ρ) (s : σ) :
    data.foldl (fun acc r => if g r then f acc r else acc) s
      = (data.filter g).foldl f s := by
  induction data generalizing s with
  | nil => rfl
  | cons r rest ih =>
    rw [List.foldl_cons, List.filter_cons]
    cases hg : g r <;> simp [hg, ih]

/-! ### Rank assignment

`.map((row, index) => ({ ...row, rank: index + 1 }))`. -/

/-- Walk the sorted list assigning `rank = index + 1`, where `setRank`
replaces a row's `rank` field. -/
def addRanksGo (setRank : ℕ → α → α) : ℕ → List α → List α
  | _, [] => []
  | i, x :: rest => setRank (i + 1) x :: addRanksGo setRank (i + 1) rest

/-- Rank assignment starting at index `0`. -/
def addRanks (setRank : ℕ → α → α) (l : List α) : List α :=
  addRanksGo setRank 0 l

theorem length_addRanksGo (setRank : ℕ → α → α) (i : ℕ) (l : List α) :
    (addRanksGo setRank i l).length = l.length := by
  induction l generalizing i with
  | nil => rfl
  | cons x rest ih => simp [addRanksGo, ih]

theorem get_addRanksGo (setRank : ℕ → α → α) (i : ℕ) (l : List α)
    (j : ℕ) (hj : j < (addRanksGo setRank i l).length)
    (hj' : j < l.length) :
    (addRanksGo setRank i l).get ⟨j, hj⟩ = setRank (i + j + 1) (l.get ⟨j, hj'⟩) := by
  induction l generalizing i j with
  | nil => exact absurd hj' (by simp)
  | cons x rest ih =>
    cases j with
    | zero => rfl
    | succ j' =>
      have hj2 : j' < (addRanksGo setRank (i + 1) rest).length := by
        simpa [addRanksGo] using hj
      have hj2' : j' < rest.length := by simpa using hj'
      have := ih (i + 1) j' hj2 hj2'
      simp only [addRanksGo, List.get_cons_succ]
      rw [this]
      ring_nf

theorem mem_addRanksGo (setRank : ℕ → α → α) (i : ℕ) (l : List α) (z : α)
    (hz : z ∈ addRanksGo setRank i l) :
    ∃ y ∈ l, ∃ n, z = setRank n y := by
  induction l generalizing i with
  | nil => exact absurd hz (by simp [addRanksGo])
  | cons x rest ih =>
    rcases List.mem_cons.mp hz with rfl | hz'
    · exact ⟨x, List.mem_cons_self x rest, i + 1, rfl⟩
    · obtain ⟨y, hy, n, hn⟩ := ih (i + 1) hz'
      exact ⟨y, List.mem_cons_of_mem x hy, n, hn⟩

theorem addRanksGo_mem (setRank : ℕ → α → α) (i : ℕ) (l : List α) (y : α)
    (hy : y ∈ l) :
    ∃ n, setRank n y ∈ addRanksGo setRank i l := by
  induction l generalizing i with
  | nil => exact absurd hy (by simp)
  | cons x rest ih =>
    rcases List.mem_cons.mp hy with rfl | hy'
    · exact ⟨i + 1, List.mem_cons_self _ _⟩
    · obtain ⟨n, hn⟩ := ih (i + 1) hy'
      exact ⟨n, List.mem_cons_of_mem _ hn⟩

theorem pairwise_addRanksGo (setRank : ℕ → α → α) (R : α → α → Prop)
    (hR : ∀ n a m b, R a b → R (setRank n a) (setRank m b))
    (i : ℕ) (l : List α) (hl : l.Pairwise R) :
    (addRanksGo setRank i l).Pairwise R := by
  induction l generalizing i with
  | nil => simp [addRanksGo]
  | cons x rest ih =>
    rcases List.pairwise_cons.mp hl with ⟨hx, hrest⟩
    refine List.pairwise_cons.mpr ⟨?_, ih (i + 1) hrest⟩
    intro z hz
    obtain ⟨y, hy, n, rfl⟩ := mem_addRanksGo setRank (i + 1) rest z hz
    exact hR _ _ _ _ (hx y hy)

/-! ### Leaderboard (`Leaderboard.tsx`)

`topTrainees` appears identically in `components/sections/Leaderboard.tsx`
and in the second bundle; `topBranches` appears in two variants: the
`components/sections/Leaderboard.tsx` one groups every record (including an
empty `branch`), the second-bundle one starts with `if (!d.branch) return;`. -/

/-- `parseFloat(x.toFixed(1))`: round to one decimal place.  JS `toFixed`
rounds to the nearest multiple of `1/10`, ties away from zero; all values
rounded in this code are nonnegative, so ties-up (`floor (10q + 1/2) / 10`)
is the exact semantics. -/
def round1 (q : ℚ) : ℚ := (⌊q * 10 + 1 / 2⌋ : ℚ) / 10

/-- Accumulator of `traineeScores[email]`. -/
structure TraineeAcc where
  name : String
  totalScore : ℚ
  count : ℕ
deriving DecidableEq, Repr

/-- One row of the Top Trainees leaderboard. -/
structure TraineeRow where
  email : String
  name : String
  avgScore : ℚ
  courseInfo : String
  courseCount : ℕ
  rank : ℕ
deriving DecidableEq, Repr

/-- The guard `d.postAssessmentScore > 0 && d.email` (a JS string is truthy
iff non-empty). -/
def traineeQualifies (r : TrainingRecord) : Bool :=
  (0 < r.postAssessmentScore) && (r.email ≠ "")

/-- `traineeScores[d.email] = { name: d.traineeName, totalScore: 0, count: 0 }`. -/
def traineeInit (r : TrainingRecord) : TraineeAcc :=
  { name := r.traineeName, totalScore := 0, count := 0 }

/-- `totalScore += d.postAssessmentScore; count++`. -/
def traineeUpd (r : TrainingRecord) (v : TraineeAcc) : TraineeAcc :=
  { v with totalScore := v.totalScore + r.postAssessmentScore,
           count := v.count + 1 }

/-- The `traineeScores` accumulation of `topTrainees`. -/
def traineeGroups (data : List TrainingRecord) : List (String × TraineeAcc) :=
  data.foldl
    (fun acc r =>
      if traineeQualifies r then
        gstep (fun r => r.email) traineeInit traineeUpd acc r
      else acc)
    []

/-- `Object.entries(traineeScores).map(...)`: build a leaderboard row
(`rank` is set later). -/
def traineeRow (email : String) (g : TraineeAcc) : TraineeRow :=
  { email := email
    name := g.name
    avgScore := round1 (g.totalScore / (g.count : ℚ))
    courseInfo := "(" ++ toString g.count ++ " courses)"
    courseCount := g.count
    rank := 0 }

/-- Comparator `(a, b) => b.avgScore - a.avgScore`. -/
def cmpTrainee (a b : TraineeRow) : ℚ := b.avgScore - a.avgScore

/-- `topTrainees` from `Leaderboard.tsx` (lines 48-69): group qualifying
records by email, average and round the post-assessment scores, sort
descending by average, then assign `rank = index + 1`. -/
def topTrainees (data : List TrainingRecord) : List TraineeRow :=
  addRanks (fun n r => { r with rank := n })
    (sortCmp cmpTrainee ((traineeGroups data).map (fun p => traineeRow p.1 p.2)))

/-- Insertion-ordered `Set.add` (JS `Set` preserves insertion order and
ignores duplicates). -/
def setAdd (s : List String) (x : String) : List String :=
  if x ∈ s then s else s ++ [x]

/-- Accumulator of `branchRates[branch]` / `supervisorRates[supervisor]`. -/
structure RateAcc where
  totalRate : ℚ
  count : ℕ
  trainees : List String
deriving DecidableEq, Repr

/-- One row of the Top Branches / Top Supervisors leaderboard. -/
structure RateRow where
  name : String
  avgRate : ℚ
  traineeInfo : String
  traineeCount : ℕ
  rank : ℕ
deriving DecidableEq, Repr

/-- `{ totalRate: 0, count: 0, trainees: new Set() }`. -/
def rateInit (_ : TrainingRecord) : RateAcc :=
  { totalRate := 0, count := 0, trainees := [] }

/-- The shared per-record update of the branch/supervisor accumulators. -/
def rateUpd (r : TrainingRecord) (v : RateAcc) : RateAcc :=
  { totalRate := v.totalRate + r.completionRate
    count := v.count + 1
    trainees := setAdd v.trainees r.traineeName }

/-- Build a branch/supervisor leaderboard row (`rank` is set later). -/
def rateRow (name : String) (g : RateAcc) : RateRow :=
  { name := name
    avgRate := round1 (g.totalRate / (g.count : ℚ))
    traineeInfo := "(" ++ toString g.trainees.length ++ " trainees)"
    traineeCount := g.trainees.length
    rank := 0 }

/-- Comparator `(a, b) => b.avgRate - a.avgRate`. -/
def cmpRate (a b : RateRow) : ℚ := b.avgRate - a.avgRate

/-- `topBranches` as written in `components/sections/Leaderboard.tsx`
(lines 71-90): every record is grouped by `branch`, with no emptiness
guard. -/
def topBranchesNoGuard (data : List TrainingRecord) : List RateRow :=
  addRanks (fun n r => { r with rank := n })
    (sortCmp cmpRate
      ((groupFold (fun r => r.branch) rateInit rateUpd data).map
        (fun p => rateRow p.1 p.2)))

/-- The guard `!d.branch` negated: a JS string is truthy iff non-empty. -/
def hasBranch (r : TrainingRecord) : Bool :=
  r.branch ≠ ""

/-- The `branchRates` accumulation of the second bundle's `topBranches`
(`if (!d.branch) return;` skips empty-branch records). -/
def branchGroups (data : List TrainingRecord) : List (String × RateAcc) :=
  data.foldl
    (fun acc r =>
      if hasBranch r then
        gstep (fun r => r.branch) rateInit rateUpd acc r
      else acc)
    []

/-- `topBranches` as written in the second bundle: records with an empty
branch are skipped before grouping. -/
def topBranches (data : List TrainingRecord) : List RateRow :=
  addRanks (fun n r => { r with rank := n })
    (sortCmp cmpRate ((branchGroups data).map (fun p => rateRow p.1 p.2)))

theorem traineeGroups_eq (data : List TrainingRecord) :
    traineeGroups data
      = groupFold (fun r => r.email) traineeInit traineeUpd
          (data.filter traineeQualifies) :=
  foldl_guarded traineeQualifies _ data []

theorem lookupA_traineeGroups (data : List TrainingRecord) (e : String) :
    lookupA e (traineeGroups data)
      = match (data.filter traineeQualifies).filter (fun r => r.email = e) with
        | [] => none
        | r :: rs => some (applyUpd traineeUpd (traineeUpd r (traineeInit r)) rs) := by
  rw [traineeGroups_eq, lookupA_groupFold]
  cases (data.filter traineeQualifies).filter (fun r => r.email = e) <;> rfl

theorem applyUpd_traineeUpd_totalScore (rs : List TrainingRecord) (v : TraineeAcc) :
    (applyUpd traineeUpd v rs).totalScore
      = v.totalScore + (rs.map (fun r => r.postAssessmentScore)).sum := by
  induction rs generalizing v with
  | nil => simp [applyUpd]
  | cons r rest ih =>
    simp only [applyUpd, List.foldl_cons] at ih ⊢
    rw [ih, List.map_cons, List.sum_cons]
    simp only [traineeUpd]
    ring

theorem applyUpd_traineeUpd_count (rs : List TrainingRecord) (v : TraineeAcc) :
    (applyUpd traineeUpd v rs).count = v.count + rs.length := by
  induction rs generalizing v with
  | nil => simp [applyUpd]
  | cons r rest ih =>
    simp only [applyUpd, List.foldl_cons] at ih ⊢
    rw [ih]
    simp only [traineeUpd, List.length_cons]
    ring

theorem nodup_traineeGroups_keys (data : List TrainingRecord) :
    ((traineeGroups data).map Prod.fst).Nodup := by
  rw [traineeGroups_eq]
  exact nodup_keys_groupFold _ _ _ _

theorem mem_topTrainees (data : List TrainingRecord) (row : TraineeRow)
    (h : row ∈ topTrainees data) :
    ∃ e g n, lookupA e (traineeGroups data) = some g
      ∧ row = { traineeRow e g with rank := n } := by
  unfold topTrainees addRanks at h
  obtain ⟨y, hy, n, rfl⟩ := mem_addRanksGo _ 0 _ _ h
  have hy' : y ∈ (traineeGroups data).map (fun p => traineeRow p.1 p.2) :=
    (perm_sortCmp cmpTrainee _).mem_iff.mp hy
  obtain ⟨p, hp, rfl⟩ := List.mem_map.mp hy'
  refine ⟨p.1, p.2, n, ?_, rfl⟩
  exact (mem_iff_lookupA _ (nodup_traineeGroups_keys data) p.1 p.2).mp
    (by simpa using hp)

theorem topTrainees_mem_of_lookup (data : List TrainingRecord) (e : String)
    (g : TraineeAcc) (hl : lookupA e (traineeGroups data) = some g) :
    ∃ row ∈ topTrainees data, row.email = e := by
  have hp : (e, g) ∈ traineeGroups data :=
    (mem_iff_lookupA _ (nodup_traineeGroups_keys data) e g).mpr hl
  have hmap : traineeRow e g ∈ (traineeGroups data).map (fun p => traineeRow p.1 p.2) :=
    List.mem_map.mpr ⟨(e, g), hp, rfl⟩
  have hsort : traineeRow e g ∈
      sortCmp cmpTrainee ((traineeGroups data).map (fun p => traineeRow p.1 p.2)) :=
    (perm_sortCmp cmpTrainee _).mem_iff.mpr hmap
  obtain ⟨m, hm⟩ := addRanksGo_mem (fun n r => { r with rank := n }) 0 _ _ hsort
  exact ⟨_, hm, rfl⟩

theorem traineeFilter_eq (data : List TrainingRecord) (e : String) (he : e ≠ "") :
    (data.filter traineeQualifies).filter (fun r => r.email = e)
      = data.filter (fun r => r.email = e && 0 < r.postAssessmentScore) := by
  rw [List.filter_filter]
  apply List.filter_congr
  intro r _
  by_cases h1 : r.email = e
  · simp [traineeQualifies, h1, he]
  · simp [traineeQualifies, h1]

/-- The trainee with two qualifying records of the scenario in §8 of the
specification. -/
def exTrainee1 : TrainingRecord :=
  { id := 1, traineeName := "A", email := "a@x.com", branch := "B1",
    districtHead := "D", supervisor := "S", courseTitle := "C1",
    completionRate := 100, preAssessmentScore := 0, postAssessmentScore := 80,
    averageQuizScore := 0, courseType := CourseType.mandatory,
    completionDate := 0, trainingHours := 0 }

/-- Second record of the same trainee, score 90. -/
def exTrainee2 : TrainingRecord :=
  { exTrainee1 with id := 2, postAssessmentScore := 90, courseTitle := "C2" }

/-- The Top Trainees row the scenario is expected to produce. -/
def exTraineeRow : TraineeRow :=
  { email := "a@x.com", name := "A", avgScore := 85,
    courseInfo := "(2 courses)", courseCount := 2, rank := 1 }

theorem branchGroups_eq (data : List TrainingRecord) :
    branchGroups data
      = groupFold (fun r => r.branch) rateInit rateUpd (data.filter hasBranch) :=
  foldl_guarded hasBranch _ data []

theorem nodup_branchGroups_keys (data : List TrainingRecord) :
    ((branchGroups data).map Prod.fst).Nodup := by
  rw [branchGroups_eq]
  exact nodup_keys_groupFold _ _ _ _

theorem lookupA_branchGroups (data : List TrainingRecord) (b : String) :
    lookupA b (branchGroups data)
      = match (data.filter hasBranch).filter (fun r => r.branch = b) with
        | [] => none
        | r :: rs => some (applyUpd rateUpd (rateUpd r (rateInit r)) rs) := by
  rw [branchGroups_eq, lookupA_groupFold]
  cases (data.filter hasBranch).filter (fun r => r.branch = b) <;> rfl

theorem mem_topBranches (data : List TrainingRecord) (row : RateRow)
    (h : row ∈ topBranches data) :
    ∃ b g n, lookupA b (branchGroups data) = some g
      ∧ row = { rateRow b g with rank := n } := by
  unfold topBranches addRanks at h
  obtain ⟨y, hy, n, rfl⟩ := mem_addRanksGo _ 0 _ _ h
  have hy' : y ∈ (branchGroups data).map (fun p => rateRow p.1 p.2) :=
    (perm_sortCmp cmpRate _).mem_iff.mp hy
  obtain ⟨p, hp, rfl⟩ := List.mem_map.mp hy'
  refine ⟨p.1, p.2, n, ?_, rfl⟩
  exact (mem_iff_lookupA _ (nodup_branchGroups_keys data) p.1 p.2).mp
    (by simpa using hp)

/-- A record whose `branch` is the empty string. -/
def exBranchRec : TrainingRecord :=
  { id := 1, traineeName := "T", email := "t@x.com", branch := "",
    districtHead := "D", supervisor := "S", courseTitle := "C1",
    completionRate := 50, preAssessmentScore := 0, postAssessmentScore := 0,
    averageQuizScore := 0, courseType := CourseType.mandatory,
    completionDate := 0, trainingHours := 0 }

/-- A record with a non-empty `branch`, for the C4 witness. -/
def exBranchRec2 : TrainingRecord :=
  { exBranchRec with id := 2, branch := "B1" }

/-- The Top Branches row `topBranches [exBranchRec2]` produces. -/
def exBranchRow : RateRow :=
  { name := "B1", avgRate := 50, traineeInfo := "(1 trainees)",
    traineeCount := 1, rank := 1 }

/-! ### At-Risk Trainees (`ActionableInsights.tsx`)

Both copies of `atRiskTrainees` are identical: per record, collect reason
strings for a low completion rate and a low (but taken) post-assessment
score; if any, upsert the trainee into an insertion-ordered `Map` keyed by
`traineeName`, remembering the FIRST flagged record as `trainee` and
appending the course-tagged reasons. -/

/-- The four user-editable thresholds (`DEFAULT_THRESHOLDS`); `parseInt`
makes them integers. -/
structure Thresholds where
  atRiskCompletion : ℤ
  atRiskScore : ℤ
  courseAttentionCompletion : ℤ
  courseAttentionScore : ℤ
deriving DecidableEq, Repr

/-- `{ AT_RISK_COMPLETION: 30, AT_RISK_SCORE: 50, COURSE_ATTENTION_COMPLETION: 60,
COURSE_ATTENTION_SCORE: 60 }`. -/
def defaultThresholds : Thresholds :=
  { atRiskCompletion := 30, atRiskScore := 50,
    courseAttentionCompletion := 60, courseAttentionScore := 60 }

/-- The per-record `reasons` array built at the top of the `forEach`. -/
def recordReasons (th : Thresholds) (r : TrainingRecord) : List String :=
  (if r.completionRate < (th.atRiskCompletion : ℚ) then
      ["Completion < " ++ toString th.atRiskCompletion ++ "%"]
    else [])
    ++ (if 0 < r.postAssessmentScore
            ∧ r.postAssessmentScore < (th.atRiskScore : ℚ) then
      ["Score < " ++ toString th.atRiskScore ++ "%"]
    else [])

/-- `reasons.map(r => ...)`: tag each reason with the course title, as
`<reason> on '<courseTitle>'`. -/
def taggedReasons (th : Thresholds) (r : TrainingRecord) : List String :=
  (recordReasons th r).map (fun s => s ++ " on '" ++ r.courseTitle ++ "'")

/-- `reasons.length > 0`. -/
def isFlagged (th : Thresholds) (r : TrainingRecord) : Bool :=
  0 < (recordReasons th r).length

/-- The flag condition spelled out as the specification words it. -/
def flaggedP (th : Thresholds) (r : TrainingRecord) : Prop :=
  r.completionRate < (th.atRiskCompletion : ℚ)
    ∨ (0 < r.postAssessmentScore ∧ r.postAssessmentScore < (th.atRiskScore : ℚ))

instance (th : Thresholds) (r : TrainingRecord) : Decidable (flaggedP th r) := by
  unfold flaggedP
  infer_instance

theorem isFlagged_iff (th : Thresholds) (r : TrainingRecord) :
    isFlagged th r = true ↔ flaggedP th r := by
  unfold isFlagged recordReasons flaggedP
  by_cases h1 : r.completionRate < (th.atRiskCompletion : ℚ) <;>
    by_cases h2 : 0 < r.postAssessmentScore
        ∧ r.postAssessmentScore < (th.atRiskScore : ℚ) <;>
    simp [h1, h2]

/-- A value of the `riskMap`: the first flagged record plus the accumulated
reason strings. -/
structure RiskEntry where
  trainee : TrainingRecord
  reasons : List String
deriving DecidableEq, Repr

/-- `riskMap.set(name, { trainee: record, reasons: [] })`. -/
def riskInit (r : TrainingRecord) : RiskEntry :=
  { trainee := r, reasons := [] }

/-- `riskMap.get(name)!.reasons.push(...tagged)`. -/
def riskUpd (th : Thresholds) (r : TrainingRecord) (v : RiskEntry) : RiskEntry :=
  { v with reasons := v.reasons ++ taggedReasons th r }

/-- The `riskMap` accumulation of `atRiskTrainees`. -/
def riskGroups (th : Thresholds) (data : List TrainingRecord) :
    List (String × RiskEntry) :=
  data.foldl
    (fun acc r =>
      if isFlagged th r then
        gstep (fun r => r.traineeName) riskInit (riskUpd th) acc r
      else acc)
    []

/-- `atRiskTrainees`: `Array.from(riskMap.values())`, insertion order. -/
def atRiskTrainees (th : Thresholds) (data : List TrainingRecord) :
    List RiskEntry :=
  (riskGroups th data).map Prod.snd

/-- One row of `atRiskTraineesData`: the display projection of a risk
entry. -/
structure RiskDataRow where
  traineeName : String
  branch : String
  supervisor : String
  reasons : String
  email : String
deriving DecidableEq, Repr

/-- `atRiskTraineesData`: project each entry to display fields, joining the
reasons with `"; "`. -/
def atRiskTraineesData (th : Thresholds) (data : List TrainingRecord) :
    List RiskDataRow :=
  (atRiskTrainees th data).map
    (fun item =>
      { traineeName := item.trainee.traineeName
        branch := item.trainee.branch
        supervisor := item.trainee.supervisor
        reasons := String.intercalate "; " item.reasons
        email := item.trainee.email })

theorem riskGroups_eq (th : Thresholds) (data : List TrainingRecord) :
    riskGroups th data
      = groupFold (fun r => r.traineeName) riskInit (riskUpd th)
          (data.filter (isFlagged th)) :=
  foldl_guarded (isFlagged th) _ data []

theorem nodup_riskGroups_keys (th : Thresholds) (data : List TrainingRecord) :
    ((riskGroups th data).map Prod.fst).Nodup := by
  rw [riskGroups_eq]
  exact nodup_keys_groupFold _ _ _ _

theorem lookupA_riskGroups (th : Thresholds) (data : List TrainingRecord)
    (n : String) :
    lookupA n (riskGroups th data)
      = match (data.filter (isFlagged th)).filter (fun r => r.traineeName = n) with
        | [] => none
        | r :: rs => some (applyUpd (riskUpd th) (riskUpd th r (riskInit r)) rs) := by
  rw [riskGroups_eq, lookupA_groupFold]
  cases (data.filter (isFlagged th)).filter (fun r => r.traineeName = n) <;> rfl

theorem applyUpd_riskUpd_trainee (th : Thresholds) (rs : List TrainingRecord)
    (v : RiskEntry) :
    (applyUpd (riskUpd th) v rs).trainee = v.trainee := by
  induction rs generalizing v with
  | nil => simp [applyUpd]
  | cons r rest ih =>
    simp only [applyUpd, List.foldl_cons] at ih ⊢
    rw [ih]
    rfl

theorem applyUpd_riskUpd_reasons (th : Thresholds) (rs : List TrainingRecord)
    (v : RiskEntry) :
    (applyUpd (riskUpd th) v rs).reasons
      = v.reasons ++ (rs.map (taggedReasons th)).flatten := by
  induction rs generalizing v with
  | nil => simp [applyUpd]
  | cons r rest ih =>
    simp only [applyUpd, List.foldl_cons] at ih ⊢
    rw [ih, List.map_cons, List.flatten_cons]
    simp [riskUpd, List.append_assoc]

/-- Characterization of a `riskMap` entry: its key's flagged records (in
input order) are non-empty, the stored `trainee` is the first of them, and
the reasons are the concatenation of their tagged reason lists. -/
theorem riskGroups_entry (th : Thresholds) (data : List TrainingRecord)
    (p : String × RiskEntry) (hp : p ∈ riskGroups th data) :
    ∃ r rs,
      (data.filter (isFlagged th)).filter (fun r => r.traineeName = p.1) = r :: rs
        ∧ p.2.trainee = r
        ∧ p.2.reasons = ((r :: rs).map (taggedReasons th)).flatten := by
  have hl := (mem_iff_lookupA _ (nodup_riskGroups_keys th data) p.1 p.2).mp hp
  rw [lookupA_riskGroups] at hl
  cases hq : (data.filter (isFlagged th)).filter (fun r => r.traineeName = p.1) with
  | nil => rw [hq] at hl; exact absurd hl (by simp)
  | cons r rs =>
    rw [hq] at hl
    have hv : p.2 = applyUpd (riskUpd th) (riskUpd th r (riskInit r)) rs := by
      injection hl.symm
    refine ⟨r, rs, rfl, ?_, ?_⟩
    · rw [hv, applyUpd_riskUpd_trainee]
      rfl
    · rw [hv, applyUpd_riskUpd_reasons, List.map_cons, List.flatten_cons]
      simp [riskUpd, riskInit]

/-- The key of a `riskMap` entry is its stored trainee's name. -/
theorem riskGroups_key (th : Thresholds) (data : List TrainingRecord)
    (p : String × RiskEntry) (hp : p ∈ riskGroups th data) :
    p.2.trainee.traineeName = p.1 := by
  obtain ⟨r, rs, hq, htr, _⟩ := riskGroups_entry th data p hp
  have hr : r ∈ (data.filter (isFlagged th)).filter (fun r => r.traineeName = p.1) :=
    hq ▸ List.mem_cons_self r rs
  rw [List.mem_filter] at hr
  rw [htr]
  exact of_decide_eq_true hr.2

/-- `find?` returns the head of the filtered list. -/
theorem find?_eq_head?_filter (p : α → Bool) (l : List α) :
    l.find? p = (l.filter p).head? := by
  induction l with
  | nil => rfl
  | cons x xs ih =>
    cases h : p x with
    | true =>
      rw [List.find?_cons_of_pos _ h, List.filter_cons_of_pos h]
      rfl
    | false =>
      rw [List.find?_cons_of_neg _ (by simp [h]),
        List.filter_cons_of_neg (by simp [h]), ih]

/-- Composing the flag guard with the per-name filter. -/
theorem riskFilter_comp (th : Thresholds) (data : List TrainingRecord)
    (n : String) :
    (data.filter (isFlagged th)).filter (fun r => r.traineeName = n)
      = data.filter (fun r => isFlagged th r && r.traineeName = n) := by
  rw [List.filter_filter]
  apply List.filter_congr
  intro r _
  exact Bool.and_comm _ _

/-- First scenario record: completion 20 (below the default 30), score not
taken. -/
def exRisk1 : TrainingRecord :=
  { id := 1, traineeName := "T", email := "t@x.com", branch := "B1",
    districtHead := "D", supervisor := "S1", courseTitle := "C1",
    completionRate := 20, preAssessmentScore := 0, postAssessmentScore := 0,
    averageQuizScore := 0, courseType := CourseType.mandatory,
    completionDate := 0, trainingHours := 0 }

/-- Second record of the same trainee: completion 90, unflagged. -/
def exRisk2 : TrainingRecord :=
  { exRisk1 with id := 2, completionRate := 90, courseTitle := "C2" }

/-- A later flagged record of the same trainee carrying different identity
fields. -/
def exRisk3 : TrainingRecord :=
  { exRisk1 with
    id := 3
    completionRate := 10
    courseTitle := "C3"
    branch := "B2"
    supervisor := "S2"
    email := "t2@x.com" }

/-- The single entry `atRiskTrainees` produces for the scenario. -/
def exRiskEntry : RiskEntry :=
  { trainee := exRisk1, reasons := ["Completion < 30% on 'C1'"] }

/-- The display row `atRiskTraineesData` produces for `[exRisk1, exRisk3]`. -/
def exRiskDataRow : RiskDataRow :=
  { traineeName := "T", branch := "B1", supervisor := "S1",
    reasons := "Completion < 30% on 'C1'; Completion < 30% on 'C3'",
    email := "t@x.com" }

/-! ### Trend rollup (`TrendAnalysis.tsx`) -/

/-- One monthly bucket of `monthlyData` before the moving average. -/
structure TrendBucket where
  month : String
  avgCompletion : ℚ
  trainingHours : ℚ
deriving DecidableEq, Repr

/-- A bucket extended with the moving-average field (JS `null` = `none`). -/
structure TrendBucketMA where
  month : String
  avgCompletion : ℚ
  trainingHours : ℚ
  movingAverage : Option ℚ
deriving DecidableEq, Repr

/-- `calculateMovingAverage` from `TrendAnalysis.tsx` (lines 17-25): with
fewer buckets than the window every bucket gets `null`; otherwise bucket
`index < windowSize - 1` gets `null`, and later buckets get the mean of the
`avgCompletion` values of `arr.slice(index - windowSize + 1, index + 1)`. -/
def calculateMovingAverage (data : List TrendBucket) (windowSize : ℕ) :
    List TrendBucketMA :=
  if data.length < windowSize then
    data.map (fun d =>
      { month := d.month, avgCompletion := d.avgCompletion,
        trainingHours := d.trainingHours, movingAverage := none })
  else
    data.enum.map (fun p =>
      if p.1 < windowSize - 1 then
        { month := p.2.month, avgCompletion := p.2.avgCompletion,
          trainingHours := p.2.trainingHours, movingAverage := none }
      else
        { month := p.2.month, avgCompletion := p.2.avgCompletion,
          trainingHours := p.2.trainingHours,
          movingAverage := some
            ((((data.drop (p.1 + 1 - windowSize)).take windowSize).map
                (fun b => b.avgCompletion)).sum / (windowSize : ℚ)) })

/-- The five-bucket series of the §8 moving-average scenario, values
`[50, 60, 70, 80, 90]`. -/
def exTrendBuckets : List TrendBucket :=
  [ { month := "Jan 2024", avgCompletion := 50, trainingHours := 0 },
    { month := "Feb 2024", avgCompletion := 60, trainingHours := 0 },
    { month := "Mar 2024", avgCompletion := 70, trainingHours := 0 },
    { month := "Apr 2024", avgCompletion := 80, trainingHours := 0 },
    { month := "May 2024", avgCompletion := 90, trainingHours := 0 } ]

/-- Transport `List.get` along an equality of lists. -/
theorem get_congr {l l' : List α} (hll : l = l') {i : ℕ} (h : i < l.length) :
    l.get ⟨i, h⟩ = l'.get ⟨i, hll ▸ h⟩ := by
  subst hll
  rfl

/-! ### Group Comparison KPIs (`ComparisonTool.tsx`) -/

/-- The KPI structure returned by `calculateKpis`. -/
structure Kpis where
  totalLearners : ℕ
  avgCompletion : ℚ
  avgPostScore : ℚ
  improvement : ℚ
  totalHours : ℚ
  recordCount : ℕ
deriving DecidableEq, Repr

/-- The all-zero KPI structure returned for an empty subset. -/
def zeroKpis : Kpis :=
  { totalLearners := 0, avgCompletion := 0, avgPostScore := 0,
    improvement := 0, totalHours := 0, recordCount := 0 }

/-- `new Set(data.map(d => d.traineeName)).size`. -/
def distinctCount (l : List String) : ℕ :=
  (l.foldl setAdd []).length

/-- `calculateKpis` from `ComparisonTool.tsx` (lines 19-30). -/
def calculateKpis (data : List TrainingRecord) : Kpis :=
  if data.length = 0 then zeroKpis
  else
    let totalLearners := distinctCount (data.map (fun d => d.traineeName))
    let avgCompletion :=
      (data.map (fun d => d.completionRate)).sum / (data.length : ℚ)
    let totalHours := (data.map (fun d => d.trainingHours)).sum
    let completedTrainings := data.filter (fun d => 0 < d.postAssessmentScore)
    let avgPostScore :=
      if 0 < completedTrainings.length then
        (completedTrainings.map (fun d => d.postAssessmentScore)).sum
          / (completedTrainings.length : ℚ)
      else 0
    let preScores := (completedTrainings.map (fun d => d.preAssessmentScore)).sum
    let postScores := (completedTrainings.map (fun d => d.postAssessmentScore)).sum
    let improvement :=
      if 0 < preScores then ((postScores - preScores) / preScores) * 100 else 0
    { totalLearners := totalLearners, avgCompletion := avgCompletion,
      avgPostScore := avgPostScore, improvement := improvement,
      totalHours := totalHours, recordCount := data.length }

/-! ### Table View State Machine (`useDataTable.ts`)

Both copies of the hook are identical.  State: `searchTerm`, `sortConfig`
(`key`, `direction`), raw `currentPage`; derived: `filteredItems`,
`sortedItems` (stable `Array.prototype.sort` with the duck-typed
comparator), `pageCount`, and the exposed clamped current page. -/

/-- `'ascending' | 'descending'`. -/
inductive SortDirection where
  | ascending
  | descending
deriving DecidableEq, Repr

/-- The hook's own state (`searchTerm`, `sortConfig`, `currentPage`). -/
structure TableState (κ : Type) where
  searchTerm : String
  sortKey : Option κ
  sortDirection : SortDirection
  currentPage : ℕ

/-- `requestSort(key)`: direction is `ascending` unless the key is unchanged
and the direction was already `ascending` (then `descending`); also resets
`currentPage` to 1. -/
def requestSort [DecidableEq κ] (key : κ) (st : TableState κ) : TableState κ :=
  { st with
    sortKey := some key
    sortDirection :=
      if st.sortKey = some key ∧ st.sortDirection = SortDirection.ascending then
        SortDirection.descending
      else SortDirection.ascending
    currentPage := 1 }

/-- The sort comparator of `sortedItems` on the values at the sort key
(`null`/`undefined` is `none`; the column is numeric): nulls compare last
regardless of direction, otherwise `<`/`>` per direction. -/
def jsCompare (dir : SortDirection) (a b : Option ℚ) : ℚ :=
  match a with
  | none => 1
  | some av =>
    match b with
    | none => -1
    | some bv =>
      if av < bv then (if dir = SortDirection.ascending then -1 else 1)
      else if bv < av then (if dir = SortDirection.ascending then 1 else -1)
      else 0

/-- `sortedItems` when a sort key is set: the stable sort of the filtered
items by `jsCompare` on the projected sort-key values. -/
def sortedItems (val : α → Option ℚ) (dir : SortDirection) (items : List α) :
    List α :=
  sortCmp (fun a b => jsCompare dir (val a) (val b)) items

/-- `pageCount = Math.ceil(sortedItems.length / rowsPerPage) || 1`. -/
def pageCount (len rowsPerPage : ℕ) : ℕ :=
  if (len + rowsPerPage - 1) / rowsPerPage = 0 then 1
  else (len + rowsPerPage - 1) / rowsPerPage

/-- The exposed page: `Math.min(currentPage, pageCount)`. -/
def actualCurrentPage (currentPage pc : ℕ) : ℕ :=
  min currentPage pc

/-- `nextPage()`: `Math.min(prev + 1, pageCount)`. -/
def nextPage (pc p : ℕ) : ℕ :=
  min (p + 1) pc

/-- `prevPage()`: `Math.max(prev - 1, 1)`. -/
def prevPage (p : ℕ) : ℕ :=
  max (p - 1) 1

/-- `setPage(page)`: `Math.max(1, Math.min(page, pageCount))`. -/
def setPage (pc page : ℕ) : ℕ :=
  max 1 (min page pc)

theorem nullsLast_insertCmp (val : α → Option ℚ) (dir : SortDirection)
    (x : α) (l : List α)
    (hl : l.Pairwise (fun a b => val a = none → val b = none)) :
    (insertCmp (fun a b => jsCompare dir (val a) (val b)) x l).Pairwise
      (fun a b => val a = none → val b = none) := by
  induction l with
  | nil => simp [insertCmp]
  | cons y ys ih =>
    rcases List.pairwise_cons.mp hl with ⟨hy, hys⟩
    by_cases hcmp : jsCompare dir (val x) (val y) ≤ 0
    · simp only [insertCmp, if_pos hcmp]
      refine List.pairwise_cons.mpr ⟨?_, hl⟩
      intro z _ hxnone
      exfalso
      rw [hxnone] at hcmp
      simp only [jsCompare] at hcmp
      norm_num at hcmp
    · simp only [insertCmp, if_neg hcmp]
      refine List.pairwise_cons.mpr ⟨?_, ih hys⟩
      intro z hz hynone
      rcases (mem_insertCmp _ x ys z).mp hz with rfl | hz'
      · cases hvx : val z with
        | none => rfl
        | some av =>
          exfalso
          apply hcmp
          rw [hvx, hynone]
          simp only [jsCompare]
          norm_num
      · exact hy z hz' hynone

theorem nullsLast_sortedItems (val : α → Option ℚ) (dir : SortDirection)
    (items : List α) :
    (sortedItems val dir items).Pairwise
      (fun a b => val a = none → val b = none) := by
  induction items with
  | nil => simp [sortedItems, sortCmp]
  | cons x xs ih =>
    simp only [sortedItems, sortCmp, List.foldr_cons] at ih ⊢
    exact nullsLast_insertCmp val dir x _ ih

/-- `Math.ceil(len / rowsPerPage) || 1` equals the ceiling of the exact
rational quotient, floored at 1. -/
theorem pageCount_spec (len rpp : ℕ) (h : 1 ≤ rpp) :
    pageCount len rpp = max 1 (Nat.ceil ((len : ℚ) / (rpp : ℚ))) := by
  have hq : (0 : ℚ) < (rpp : ℚ) := by exact_mod_cast h
  have hceil : Nat.ceil ((len : ℚ) / (rpp : ℚ)) = (len + rpp - 1) / rpp := by
    apply le_antisymm
    · rw [Nat.ceil_le, div_le_iff₀ hq]
      have h1 := Nat.div_add_mod (len + rpp - 1) rpp
      have h2 := Nat.mod_lt (len + rpp - 1) (show 0 < rpp from h)
      have hb : len ≤ rpp * ((len + rpp - 1) / rpp) := by omega
      calc (len : ℚ) ≤ ((rpp * ((len + rpp - 1) / rpp) : ℕ) : ℚ) := by
            exact_mod_cast hb
        _ = (((len + rpp - 1) / rpp : ℕ) : ℚ) * (rpp : ℚ) := by
            push_cast
            ring
    · by_cases hd : (len + rpp - 1) / rpp = 0
      · rw [hd]
        exact Nat.zero_le _
      · have hlen : 1 ≤ len := by
          by_contra hl
          have hl0 : len = 0 := by omega
          apply hd
          rw [hl0]
          exact Nat.div_eq_of_lt (by omega)
        have hlt : rpp * ((len + rpp - 1) / rpp - 1) < len := by
          have h1 := Nat.div_add_mod (len + rpp - 1) rpp
          have h2 := Nat.mod_lt (len + rpp - 1) (show 0 < rpp from h)
          have h3 : rpp * ((len + rpp - 1) / rpp - 1)
              = rpp * ((len + rpp - 1) / rpp) - rpp := by
            rw [Nat.mul_sub_one]
          omega
        have hlt2 : (len + rpp - 1) / rpp - 1 < Nat.ceil ((len : ℚ) / (rpp : ℚ)) := by
          rw [Nat.lt_ceil, lt_div_iff₀ hq]
          calc ((((len + rpp - 1) / rpp - 1 : ℕ)) : ℚ) * (rpp : ℚ)
              = ((rpp * ((len + rpp - 1) / rpp - 1) : ℕ) : ℚ) := by
                push_cast
                ring
            _ < (len : ℚ) := by exact_mod_cast hlt
        omega
  rw [pageCount, hceil]
  by_cases hd : (len + rpp - 1) / rpp = 0
  · simp [hd]
  · rw [if_neg hd]
    omega

/-- Division that refuses a zero divisor, used to check that `calculateKpis`
never actually divides by zero. -/
def qdiv (a b : ℚ) : Option ℚ :=
  if b = 0 then none else some (a / b)

/-- `calculateKpis` with every division routed through `qdiv`: returns
`none` iff some division by zero would be attempted. -/
def calculateKpisChecked (data : List TrainingRecord) : Option Kpis :=
  if data.length = 0 then some zeroKpis
  else
    let completedTrainings := data.filter (fun d => 0 < d.postAssessmentScore)
    let preScores := (completedTrainings.map (fun d => d.preAssessmentScore)).sum
    let postScores := (completedTrainings.map (fun d => d.postAssessmentScore)).sum
    (qdiv (data.map (fun d => d.completionRate)).sum (data.length : ℚ)).bind
      (fun avgCompletion =>
        (if 0 < completedTrainings.length then
            qdiv (completedTrainings.map (fun d => d.postAssessmentScore)).sum
              (completedTrainings.length : ℚ)
          else some 0).bind
          (fun avgPostScore =>
            (if 0 < preScores then
                (qdiv (postScores - preScores) preScores).map (fun x => x * 100)
              else some 0).map
              (fun improvement =>
                { totalLearners := distinctCount (data.map (fun d => d.traineeName))
                  avgCompletion := avgCompletion
                  avgPostScore := avgPostScore
                  improvement := improvement
                  totalHours := (data.map (fun d => d.trainingHours)).sum
                  recordCount := data.length })))

end LMS

/-- C1: `applyFilters` keeps exactly the records satisfying the conjunctive
spec predicate (each non-empty selection must contain the record's field, and
each present date bound must hold), in input order, and the all-empty filter
returns the input unchanged. -/
theorem C1_applyFilters_correct (records : List LMS.TrainingRecord) (f : LMS.Filters) :
    LMS.applyFilters records f
        = records.filter (fun item => decide (LMS.specPasses f item))
      ∧ LMS.applyFilters records LMS.Filters.empty = records := by
  constructor
  · unfold LMS.applyFilters
    apply List.filter_congr
    intro item _
    exact LMS.recordPasses_eq_decide f item
  · unfold LMS.applyFilters
    rw [List.filter_eq_self]
    intro item _
    exact LMS.recordPasses_empty item

/-- C2: applying the same filters twice yields the same list as applying them
once. -/
theorem C2_applyFilters_idempotent (records : List LMS.TrainingRecord) (f : LMS.Filters) :
    LMS.applyFilters (LMS.applyFilters records f) f = LMS.applyFilters records f := by
  unfold LMS.applyFilters
  rw [List.filter_filter]
  apply List.filter_congr
  intro item _
  cases h : LMS.recordPasses f item <;> simp [h]

/-- C3: the Top Trainees leaderboard has one row per email occurring on a
record with non-empty email and positive post-assessment score; each row's
average is the 1-decimal rounding of the mean post score of those records;
rows are sorted descending by average; the row at position `i` has rank
`i + 1`; and the two-record scenario (scores 80 and 90 for `a@x.com`)
produces the single row `name "A", avgScore 85, rank 1`. -/
theorem C3_topTrainees (data : List LMS.TrainingRecord) :
    (∀ e : String,
        (∃ row ∈ LMS.topTrainees data, row.email = e)
          ↔ e ≠ "" ∧ ∃ r ∈ data, r.email = e ∧ 0 < r.postAssessmentScore)
      ∧ (∀ row ∈ LMS.topTrainees data,
          row.avgScore
            = LMS.round1
                (((data.filter
                      (fun r => r.email = row.email && 0 < r.postAssessmentScore)).map
                    (fun r => r.postAssessmentScore)).sum
                  / ((data.filter
                      (fun r => r.email = row.email && 0 < r.postAssessmentScore)).length : ℚ)))
      ∧ (LMS.topTrainees data).Pairwise (fun a b => b.avgScore ≤ a.avgScore)
      ∧ (∀ i (h : i < (LMS.topTrainees data).length),
          ((LMS.topTrainees data).get ⟨i, h⟩).rank = i + 1)
      ∧ LMS.topTrainees [LMS.exTrainee1, LMS.exTrainee2]
          = [{ email := "a@x.com", name := "A", avgScore := 85,
               courseInfo := "(2 courses)", courseCount := 2, rank := 1 }] := by
  have hqmem : ∀ (e : String) (r : LMS.TrainingRecord),
      r ∈ (data.filter LMS.traineeQualifies).filter (fun r => r.email = e)
        ↔ r ∈ data ∧ (0 < r.postAssessmentScore ∧ r.email ≠ "") ∧ r.email = e := by
    intro e r
    simp only [List.mem_filter, LMS.traineeQualifies, Bool.and_eq_true,
      decide_eq_true_eq]
    tauto
  refine ⟨?_, ?_, ?_, ?_, ?_⟩
  · intro e
    constructor
    · rintro ⟨row, hrow, rfl⟩
      obtain ⟨e', g, n, hl, rfl⟩ := LMS.mem_topTrainees data row hrow
      rw [LMS.lookupA_traineeGroups] at hl
      cases hq : (data.filter LMS.traineeQualifies).filter (fun r => r.email = e') with
      | nil => rw [hq] at hl; exact absurd hl (by simp)
      | cons r rs =>
        have hr : r ∈ (data.filter LMS.traineeQualifies).filter (fun r => r.email = e') :=
          hq ▸ List.mem_cons_self r rs
        rw [hqmem] at hr
        obtain ⟨hrdata, ⟨hpost, hne⟩, hre⟩ := hr
        exact ⟨hre ▸ hne, r, hrdata, hre, hpost⟩
    · rintro ⟨he, r, hrdata, hre, hpost⟩
      have hr : r ∈ (data.filter LMS.traineeQualifies).filter (fun r => r.email = e) :=
        (hqmem e r).mpr ⟨hrdata, ⟨hpost, hre ▸ he⟩, hre⟩
      cases hq : (data.filter LMS.traineeQualifies).filter (fun r => r.email = e) with
      | nil => rw [hq] at hr; exact absurd hr (by simp)
      | cons r0 rs =>
        have hl : LMS.lookupA e (LMS.traineeGroups data)
            = some (LMS.applyUpd LMS.traineeUpd (LMS.traineeUpd r0 (LMS.traineeInit r0)) rs) := by
          rw [LMS.lookupA_traineeGroups, hq]
        exact LMS.topTrainees_mem_of_lookup data e _ hl
  · intro row hrow
    obtain ⟨e, g, n, hl, rfl⟩ := LMS.mem_topTrainees data row hrow
    rw [LMS.lookupA_traineeGroups] at hl
    cases hq : (data.filter LMS.traineeQualifies).filter (fun r => r.email = e) with
    | nil => rw [hq] at hl; exact absurd hl (by simp)
    | cons r rs =>
      rw [hq] at hl
      have hg : g = LMS.applyUpd LMS.traineeUpd (LMS.traineeUpd r (LMS.traineeInit r)) rs := by
        injection hl.symm
      have hr : r ∈ (data.filter LMS.traineeQualifies).filter (fun r => r.email = e) :=
        hq ▸ List.mem_cons_self r rs
      rw [hqmem] at hr
      obtain ⟨_, ⟨_, hne⟩, hre⟩ := hr
      have he : e ≠ "" := hre ▸ hne
      have hemail : ({ LMS.traineeRow e g with rank := n } : LMS.TraineeRow).email = e := rfl
      rw [hemail, ← LMS.traineeFilter_eq data e he, hq]
      have htot : g.totalScore = ((r :: rs).map (fun r => r.postAssessmentScore)).sum := by
        rw [hg, LMS.applyUpd_traineeUpd_totalScore]
        simp [LMS.traineeUpd, LMS.traineeInit]
      have hcnt : g.count = (r :: rs).length := by
        rw [hg, LMS.applyUpd_traineeUpd_count]
        simp only [LMS.traineeUpd, LMS.traineeInit, List.length_cons]
        omega
      show LMS.round1 (g.totalScore / (g.count : ℚ)) = _
      rw [htot, hcnt]
  · unfold LMS.topTrainees LMS.addRanks
    apply LMS.pairwise_addRanksGo
    · intro n a m b h
      exact h
    · have := LMS.pairwise_sortCmp LMS.cmpTrainee
        (fun a b => by
          rcases le_total a.avgScore b.avgScore with h | h
          · exact Or.inr (by simpa [LMS.cmpTrainee] using sub_nonpos.mpr h)
          · exact Or.inl (by simpa [LMS.cmpTrainee] using sub_nonpos.mpr h))
        (fun a b c hab hbc => by
          simp only [LMS.cmpTrainee, sub_nonpos] at hab hbc ⊢
          exact le_trans hbc hab)
        ((LMS.traineeGroups data).map (fun p => LMS.traineeRow p.1 p.2))
      exact this.imp (fun h => by simpa [LMS.cmpTrainee, sub_nonpos] using h)
  · show ∀ i (h : i < (LMS.addRanksGo
        (fun n (r : LMS.TraineeRow) => { r with rank := n }) 0
        (LMS.sortCmp LMS.cmpTrainee
          ((LMS.traineeGroups data).map
            (fun p : String × LMS.TraineeAcc => LMS.traineeRow p.1 p.2)))).length),
      ((LMS.addRanksGo (fun n (r : LMS.TraineeRow) => { r with rank := n }) 0
        (LMS.sortCmp LMS.cmpTrainee
          ((LMS.traineeGroups data).map
            (fun p : String × LMS.TraineeAcc => LMS.traineeRow p.1 p.2)))).get
          ⟨i, h⟩).rank = i + 1
    intro i h
    have h2 : i < (LMS.sortCmp LMS.cmpTrainee
        ((LMS.traineeGroups data).map
          (fun p : String × LMS.TraineeAcc => LMS.traineeRow p.1 p.2))).length := by
      simpa [LMS.length_addRanksGo] using h
    rw [LMS.get_addRanksGo _ 0 _ i h h2]
    simp
  · norm_num [LMS.topTrainees, LMS.traineeGroups, LMS.traineeQualifies,
      LMS.gstep, LMS.lookupA, LMS.modifyA, LMS.addRanks, LMS.addRanksGo,
      LMS.sortCmp, LMS.insertCmp, LMS.cmpTrainee, LMS.traineeRow,
      LMS.traineeInit, LMS.traineeUpd, LMS.round1, LMS.exTrainee1,
      LMS.exTrainee2, List.foldl]
    decide

/-- Witness for C3 at the two-record scenario: the produced row's average
score is the rounded mean of the two post-assessment scores. -/
theorem C3_topTrainees_witness :
    LMS.exTraineeRow.avgScore
      = LMS.round1
          (((([LMS.exTrainee1, LMS.exTrainee2].filter
                (fun r => r.email = LMS.exTraineeRow.email && 0 < r.postAssessmentScore)).map
              (fun r => r.postAssessmentScore)).sum)
            / (([LMS.exTrainee1, LMS.exTrainee2].filter
                (fun r => r.email = LMS.exTraineeRow.email && 0 < r.postAssessmentScore)).length : ℚ)) := by
  have hC := C3_topTrainees [LMS.exTrainee1, LMS.exTrainee2]
  have hmem : LMS.exTraineeRow ∈ LMS.topTrainees [LMS.exTrainee1, LMS.exTrainee2] := by
    rw [hC.2.2.2.2]
    simp [LMS.exTraineeRow]
  exact hC.2.1 _ hmem

/-- C4 counterexample: in `topBranches` as written in
`components/sections/Leaderboard.tsx`, a record whose `branch` is the empty
string is NOT excluded — it forms a group whose row name is the empty
string. -/
theorem C4_topBranches_counterexample :
    (LMS.topBranchesNoGuard [LMS.exBranchRec]).map (fun row => row.name) = [""] := by
  norm_num [LMS.topBranchesNoGuard, LMS.groupFold, LMS.gstep, LMS.lookupA,
    LMS.modifyA, LMS.addRanks, LMS.addRanksGo, LMS.sortCmp, LMS.insertCmp,
    LMS.cmpRate, LMS.rateRow, LMS.rateInit, LMS.rateUpd, LMS.setAdd,
    LMS.round1, LMS.exBranchRec, List.foldl]

/-- C4 amended: the second bundle's `topBranches` (the variant with the
`if (!d.branch) return;` guard) excludes empty-branch records: no output row
is named by the empty string, and dropping all empty-branch records leaves
the output unchanged.  The `components/sections/Leaderboard.tsx` variant has
no such guard (see the counterexample). -/
theorem C4_topBranches_amended (data : List LMS.TrainingRecord) :
    (∀ row ∈ LMS.topBranches data, row.name ≠ "")
      ∧ LMS.topBranches data = LMS.topBranches (data.filter LMS.hasBranch) := by
  constructor
  · intro row hrow
    obtain ⟨b, g, n, hl, rfl⟩ := LMS.mem_topBranches data row hrow
    rw [LMS.lookupA_branchGroups] at hl
    cases hq : (data.filter LMS.hasBranch).filter (fun r => r.branch = b) with
    | nil => rw [hq] at hl; exact absurd hl (by simp)
    | cons r rs =>
      have hr : r ∈ (data.filter LMS.hasBranch).filter (fun r => r.branch = b) :=
        hq ▸ List.mem_cons_self r rs
      simp only [List.mem_filter, LMS.hasBranch, decide_eq_true_eq] at hr
      show b ≠ ""
      obtain ⟨⟨_, hne⟩, hrb⟩ := hr
      exact hrb ▸ hne
  · unfold LMS.topBranches
    have hff : (data.filter LMS.hasBranch).filter LMS.hasBranch
        = data.filter LMS.hasBranch := by
      rw [List.filter_filter]
      apply List.filter_congr
      intro r _
      cases h : LMS.hasBranch r <;> simp [h]
    rw [LMS.branchGroups_eq, LMS.branchGroups_eq, hff]

/-- Witness for the amended C4: on one record with branch `"B1"`, the single
produced row is named `"B1"`, which is non-empty. -/
theorem C4_topBranches_amended_witness :
    LMS.exBranchRow.name ≠ "" := by
  have hC := C4_topBranches_amended [LMS.exBranchRec2]
  have hmem : LMS.exBranchRow ∈ LMS.topBranches [LMS.exBranchRec2] := by
    have heval : LMS.topBranches [LMS.exBranchRec2] = [LMS.exBranchRow] := by
      norm_num [LMS.topBranches, LMS.branchGroups, LMS.hasBranch, LMS.gstep,
        LMS.lookupA, LMS.modifyA, LMS.addRanks, LMS.addRanksGo, LMS.sortCmp,
        LMS.insertCmp, LMS.cmpRate, LMS.rateRow, LMS.rateInit, LMS.rateUpd,
        LMS.setAdd, LMS.round1, LMS.exBranchRec, LMS.exBranchRec2,
        LMS.exBranchRow, List.foldl]
      decide
    rw [heval]
    exact List.mem_singleton.mpr rfl
  exact hC.1 LMS.exBranchRow hmem

/-- C5: the At-Risk aggregation has at most one entry per trainee name; an
entry exists for a name iff some record of that name is flagged (completion
below the completion threshold, or a taken score below the score threshold);
an entry's reasons are exactly the course-tagged reasons of that trainee's
flagged records, in order; and the two-record scenario (completion 20 then
90, defaults) yields one entry with one reason naming only the first
course. -/
theorem C5_atRiskTrainees (th : LMS.Thresholds) (data : List LMS.TrainingRecord) :
    ((LMS.atRiskTrainees th data).map (fun en => en.trainee.traineeName)).Nodup
      ∧ (∀ n : String,
          (∃ en ∈ LMS.atRiskTrainees th data, en.trainee.traineeName = n)
            ↔ ∃ r ∈ data, r.traineeName = n ∧ LMS.flaggedP th r)
      ∧ (∀ en ∈ LMS.atRiskTrainees th data,
          en.reasons
            = ((data.filter
                  (fun r => LMS.isFlagged th r
                    && r.traineeName = en.trainee.traineeName)).map
                (LMS.taggedReasons th)).flatten)
      ∧ LMS.atRiskTrainees LMS.defaultThresholds [LMS.exRisk1, LMS.exRisk2]
          = [LMS.exRiskEntry] := by
  refine ⟨?_, ?_, ?_, ?_⟩
  · have hmapeq : (LMS.atRiskTrainees th data).map (fun en => en.trainee.traineeName)
        = (LMS.riskGroups th data).map Prod.fst := by
      unfold LMS.atRiskTrainees
      rw [List.map_map]
      apply List.map_congr_left
      intro p hp
      exact LMS.riskGroups_key th data p hp
    rw [hmapeq]
    exact LMS.nodup_riskGroups_keys th data
  · intro n
    constructor
    · rintro ⟨en, hen, rfl⟩
      obtain ⟨p, hp, rfl⟩ := List.mem_map.mp hen
      obtain ⟨r, rs, hq, htr, _⟩ := LMS.riskGroups_entry th data p hp
      have hr : r ∈ (data.filter (LMS.isFlagged th)).filter
          (fun r => r.traineeName = p.1) :=
        hq ▸ List.mem_cons_self r rs
      simp only [List.mem_filter, decide_eq_true_eq] at hr
      obtain ⟨⟨hrdata, hfl⟩, hrn⟩ := hr
      refine ⟨r, hrdata, ?_, (LMS.isFlagged_iff th r).mp hfl⟩
      rw [htr]
    · rintro ⟨r, hrdata, hname, hflag⟩
      have hrmem : r ∈ (data.filter (LMS.isFlagged th)).filter
          (fun r => r.traineeName = n) := by
        simp only [List.mem_filter, decide_eq_true_eq]
        exact ⟨⟨hrdata, (LMS.isFlagged_iff th r).mpr hflag⟩, hname⟩
      cases hq : (data.filter (LMS.isFlagged th)).filter
          (fun r => r.traineeName = n) with
      | nil => rw [hq] at hrmem; exact absurd hrmem (by simp)
      | cons r0 rs =>
        have hl : LMS.lookupA n (LMS.riskGroups th data)
            = some (LMS.applyUpd (LMS.riskUpd th)
                (LMS.riskUpd th r0 (LMS.riskInit r0)) rs) := by
          rw [LMS.lookupA_riskGroups, hq]
        have hp : (n, LMS.applyUpd (LMS.riskUpd th)
            (LMS.riskUpd th r0 (LMS.riskInit r0)) rs) ∈ LMS.riskGroups th data :=
          (LMS.mem_iff_lookupA _ (LMS.nodup_riskGroups_keys th data) _ _).mpr hl
        refine ⟨_, List.mem_map.mpr ⟨_, hp, rfl⟩, ?_⟩
        exact LMS.riskGroups_key th data _ hp
  · intro en hen
    obtain ⟨p, hp, rfl⟩ := List.mem_map.mp hen
    obtain ⟨r, rs, hq, htr, hreasons⟩ := LMS.riskGroups_entry th data p hp
    have hkey := LMS.riskGroups_key th data p hp
    rw [hkey, ← LMS.riskFilter_comp, hq]
    exact hreasons
  · norm_num [LMS.atRiskTrainees, LMS.riskGroups, LMS.isFlagged,
      LMS.recordReasons, LMS.taggedReasons, LMS.gstep, LMS.lookupA,
      LMS.modifyA, LMS.riskInit, LMS.riskUpd, LMS.defaultThresholds,
      LMS.exRisk1, LMS.exRisk2, LMS.exRiskEntry, List.foldl]
    decide

/-- Witness for C5: the scenario entry's reason list is exactly the tagged
reasons of the trainee's flagged records. -/
theorem C5_atRiskTrainees_witness :
    LMS.exRiskEntry.reasons
      = ((([LMS.exRisk1, LMS.exRisk2]).filter
            (fun r => LMS.isFlagged LMS.defaultThresholds r
              && r.traineeName = LMS.exRiskEntry.trainee.traineeName)).map
          (LMS.taggedReasons LMS.defaultThresholds)).flatten := by
  have hC := C5_atRiskTrainees LMS.defaultThresholds [LMS.exRisk1, LMS.exRisk2]
  have hmem : LMS.exRiskEntry
      ∈ LMS.atRiskTrainees LMS.defaultThresholds [LMS.exRisk1, LMS.exRisk2] := by
    rw [hC.2.2.2]
    exact List.mem_singleton.mpr rfl
  exact hC.2.2.1 LMS.exRiskEntry hmem

/-- C10 (implicit): an At-Risk display row's identity fields (branch,
supervisor, email) come from the trainee's FIRST flagged record in input
order — `find?` of the flag-and-name predicate — regardless of what later
flagged records carry. -/
theorem C10_atRisk_identity_fields (th : LMS.Thresholds)
    (data : List LMS.TrainingRecord) :
    ∀ drow ∈ LMS.atRiskTraineesData th data,
      ∃ r0, data.find?
          (fun r => LMS.isFlagged th r && r.traineeName = drow.traineeName)
            = some r0
        ∧ drow.branch = r0.branch
        ∧ drow.supervisor = r0.supervisor
        ∧ drow.email = r0.email := by
  intro drow hdrow
  obtain ⟨en, hen, rfl⟩ := List.mem_map.mp hdrow
  obtain ⟨p, hp, rfl⟩ := List.mem_map.mp hen
  obtain ⟨r, rs, hq, htr, _⟩ := LMS.riskGroups_entry th data p hp
  have hkey := LMS.riskGroups_key th data p hp
  refine ⟨r, ?_, ?_, ?_, ?_⟩
  · rw [LMS.find?_eq_head?_filter]
    have hnm : ({ traineeName := p.2.trainee.traineeName
                  branch := p.2.trainee.branch
                  supervisor := p.2.trainee.supervisor
                  reasons := String.intercalate "; " p.2.reasons
                  email := p.2.trainee.email } : LMS.RiskDataRow).traineeName
        = p.1 := hkey
    rw [hnm, ← LMS.riskFilter_comp, hq]
    rfl
  · rw [htr]
  · rw [htr]
  · rw [htr]

/-- Witness for C10: with a second flagged record carrying branch `"B2"`,
supervisor `"S2"`, email `"t2@x.com"`, the row still shows the first flagged
record's `"B1"`, `"S1"`, `"t@x.com"`. -/
theorem C10_atRisk_identity_fields_witness :
    [LMS.exRisk1, LMS.exRisk3].find?
        (fun r => LMS.isFlagged LMS.defaultThresholds r
          && r.traineeName = LMS.exRiskDataRow.traineeName) = some LMS.exRisk1
      ∧ LMS.exRiskDataRow.branch = LMS.exRisk1.branch
      ∧ LMS.exRiskDataRow.supervisor = LMS.exRisk1.supervisor
      ∧ LMS.exRiskDataRow.email = LMS.exRisk1.email := by
  have heval : LMS.atRiskTraineesData LMS.defaultThresholds
      [LMS.exRisk1, LMS.exRisk3] = [LMS.exRiskDataRow] := by
    norm_num [LMS.atRiskTraineesData, LMS.atRiskTrainees, LMS.riskGroups,
      LMS.isFlagged, LMS.recordReasons, LMS.taggedReasons, LMS.gstep,
      LMS.lookupA, LMS.modifyA, LMS.riskInit, LMS.riskUpd,
      LMS.defaultThresholds, LMS.exRisk1, LMS.exRisk3, LMS.exRiskDataRow,
      List.foldl, String.intercalate]
    decide
  have hmem : LMS.exRiskDataRow
      ∈ LMS.atRiskTraineesData LMS.defaultThresholds [LMS.exRisk1, LMS.exRisk3] := by
    rw [heval]
    exact List.mem_singleton.mpr rfl
  obtain ⟨r0, hfind, hb, hs, he⟩ :=
    C10_atRisk_identity_fields LMS.defaultThresholds [LMS.exRisk1, LMS.exRisk3]
      LMS.exRiskDataRow hmem
  have hfind1 : [LMS.exRisk1, LMS.exRisk3].find?
      (fun r => LMS.isFlagged LMS.defaultThresholds r
        && r.traineeName = LMS.exRiskDataRow.traineeName) = some LMS.exRisk1 := by
    norm_num [LMS.isFlagged, LMS.recordReasons, LMS.defaultThresholds,
      LMS.exRisk1, LMS.exRisk3, LMS.exRiskDataRow, List.find?]
  have hr0 : r0 = LMS.exRisk1 := by
    rw [hfind1] at hfind
    injection hfind.symm
  rw [hr0] at hb hs he
  exact ⟨hfind1, hb, hs, he⟩

/-- C6: with window 3, the moving average is `null` for the first two
buckets and the mean of the values at `i-2`, `i-1`, `i` from bucket 2 on;
on the series `[50,60,70,80,90]` it is `[null, null, 60, 70, 80]`. -/
theorem C6_calculateMovingAverage (buckets : List LMS.TrendBucket) :
    (LMS.calculateMovingAverage buckets 3).length = buckets.length
      ∧ (∀ i (h : i < (LMS.calculateMovingAverage buckets 3).length)
            (h' : i < buckets.length),
          ((LMS.calculateMovingAverage buckets 3).get ⟨i, h⟩).movingAverage
            = if i < 2 then none
              else some
                (((buckets.get ⟨i - 2, by omega⟩).avgCompletion
                    + (buckets.get ⟨i - 1, by omega⟩).avgCompletion
                    + (buckets.get ⟨i, h'⟩).avgCompletion) / 3))
      ∧ (LMS.calculateMovingAverage LMS.exTrendBuckets 3).map
            (fun b => b.movingAverage)
          = [none, none, some 60, some 70, some 80] := by
  refine ⟨?_, ?_, ?_⟩
  · unfold LMS.calculateMovingAverage
    by_cases hlen : buckets.length < 3 <;> simp [hlen]
  · intro i h h'
    by_cases hlen : buckets.length < 3
    · have hi2 : i < 2 := by omega
      rw [if_pos hi2]
      have hL : LMS.calculateMovingAverage buckets 3
          = buckets.map (fun d =>
              ({ month := d.month, avgCompletion := d.avgCompletion,
                 trainingHours := d.trainingHours, movingAverage := none } :
                LMS.TrendBucketMA)) := by
        rw [LMS.calculateMovingAverage, if_pos hlen]
      rw [LMS.get_congr hL h]
      simp [List.get_eq_getElem, List.getElem_map]
    · have hL : LMS.calculateMovingAverage buckets 3
          = buckets.enum.map (fun p =>
              if p.1 < 3 - 1 then
                ({ month := p.2.month, avgCompletion := p.2.avgCompletion,
                   trainingHours := p.2.trainingHours,
                   movingAverage := none } : LMS.TrendBucketMA)
              else
                { month := p.2.month, avgCompletion := p.2.avgCompletion,
                  trainingHours := p.2.trainingHours,
                  movingAverage := some
                    ((((buckets.drop (p.1 + 1 - 3)).take 3).map
                        (fun b => b.avgCompletion)).sum / ((3 : ℕ) : ℚ)) }) := by
        rw [LMS.calculateMovingAverage, if_neg hlen]
      rw [LMS.get_congr hL h]
      simp only [List.get_eq_getElem, List.getElem_map, List.getElem_enum]
      by_cases hi2 : i < 2
      · rw [if_pos (by omega : i < 3 - 1), if_pos hi2]
      · have hd2 : i - 2 < buckets.length := by omega
        have hd1 : i - 1 < buckets.length := by omega
        have hdrop : (buckets.drop (i - 2)).take 3
            = [buckets.get ⟨i - 2, hd2⟩, buckets.get ⟨i - 1, hd1⟩,
               buckets.get ⟨i, h'⟩] := by
          have e1 : i - 2 + 1 = i - 1 := by omega
          have e2 : i - 1 + 1 = i := by omega
          rw [List.drop_eq_getElem_cons hd2, e1,
            List.drop_eq_getElem_cons hd1, e2,
            List.drop_eq_getElem_cons h']
          simp [List.take, List.get_eq_getElem]
        rw [if_neg (by omega : ¬ i < 3 - 1), if_neg hi2]
        have e3 : i + 1 - 3 = i - 2 := by omega
        rw [e3, hdrop]
        simp only [List.map_cons, List.map_nil, List.sum_cons, List.sum_nil,
          List.get_eq_getElem, Option.some.injEq]
        push_cast
        ring
  · norm_num [LMS.calculateMovingAverage, LMS.exTrendBuckets, List.enum,
      List.enumFrom]

/-- Witness for C6: on the scenario series, bucket 2 carries the moving
average `(50 + 60 + 70) / 3 = 60`. -/
theorem C6_calculateMovingAverage_witness :
    ((LMS.calculateMovingAverage LMS.exTrendBuckets 3).get
        ⟨2, by decide⟩).movingAverage = some 60 := by
  have h2 : 2 < (LMS.calculateMovingAverage LMS.exTrendBuckets 3).length := by
    decide
  have h' : 2 < LMS.exTrendBuckets.length := by decide
  have hv := (C6_calculateMovingAverage LMS.exTrendBuckets).2.1 2 h2 h'
  exact hv.trans (by norm_num [LMS.exTrendBuckets, List.get_eq_getElem])

/-- C7: `calculateKpis` returns all-zero KPIs on the empty subset; the
improvement KPI is the summed-scores formula over the records with a taken
post score, short-circuited to 0 unless the pre-score sum is positive; and
routing every division through a zero-refusing divide never fails, on any
input. -/
theorem C7_calculateKpis (data : List LMS.TrainingRecord) :
    LMS.calculateKpis [] = LMS.zeroKpis
      ∧ (LMS.calculateKpis data).improvement
          = (if 0 < ((data.filter (fun d => 0 < d.postAssessmentScore)).map
                  (fun d => d.preAssessmentScore)).sum then
              ((((data.filter (fun d => 0 < d.postAssessmentScore)).map
                    (fun d => d.postAssessmentScore)).sum
                  - ((data.filter (fun d => 0 < d.postAssessmentScore)).map
                    (fun d => d.preAssessmentScore)).sum)
                / ((data.filter (fun d => 0 < d.postAssessmentScore)).map
                    (fun d => d.preAssessmentScore)).sum) * 100
            else 0)
      ∧ LMS.calculateKpisChecked data = some (LMS.calculateKpis data) := by
  refine ⟨rfl, ?_, ?_⟩
  · by_cases hlen : data.length = 0
    · have hnil : data = [] := List.length_eq_zero.mp hlen
      subst hnil
      simp [LMS.calculateKpis, LMS.zeroKpis]
    · simp only [LMS.calculateKpis, if_neg hlen]
  · by_cases hlen : data.length = 0
    · simp [LMS.calculateKpisChecked, LMS.calculateKpis, hlen]
    · have h1 : ((data.length : ℚ)) ≠ 0 := Nat.cast_ne_zero.mpr hlen
      by_cases hc : 0 < (data.filter (fun d => 0 < d.postAssessmentScore)).length
      · by_cases hp : 0 < ((data.filter (fun d => 0 < d.postAssessmentScore)).map
            (fun d => d.preAssessmentScore)).sum
        · simp [LMS.calculateKpisChecked, LMS.calculateKpis, hlen, LMS.qdiv,
            h1, hc, hp, Nat.cast_eq_zero, Nat.pos_iff_ne_zero.mp hc, hp.ne']
        · simp [LMS.calculateKpisChecked, LMS.calculateKpis, hlen, LMS.qdiv,
            h1, hc, hp, Nat.cast_eq_zero, Nat.pos_iff_ne_zero.mp hc]
      · by_cases hp : 0 < ((data.filter (fun d => 0 < d.postAssessmentScore)).map
            (fun d => d.preAssessmentScore)).sum
        · simp [LMS.calculateKpisChecked, LMS.calculateKpis, hlen, LMS.qdiv,
            h1, hc, hp, hp.ne']
        · simp [LMS.calculateKpisChecked, LMS.calculateKpis, hlen, LMS.qdiv,
            h1, hc, hp]

/-- C8: `requestSort` keeps the key, resets the page to 1, toggles the
direction when the key is unchanged and sets ascending otherwise; the sorted
output is a permutation of the input in which every null-valued row follows
every non-null-valued row (both directions), and the rows sharing any
non-null value keep their relative input order. -/
theorem C8_requestSort_and_sort {κ α : Type} [DecidableEq κ] :
    (∀ (st : LMS.TableState κ) (key : κ),
        (LMS.requestSort key st).sortKey = some key
          ∧ (LMS.requestSort key st).currentPage = 1
          ∧ (st.sortKey = some key →
              (LMS.requestSort key st).sortDirection
                = (if st.sortDirection = LMS.SortDirection.ascending then
                    LMS.SortDirection.descending
                  else LMS.SortDirection.ascending))
          ∧ (st.sortKey ≠ some key →
              (LMS.requestSort key st).sortDirection
                = LMS.SortDirection.ascending))
      ∧ (∀ (val : α → Option ℚ) (dir : LMS.SortDirection) (items : List α),
          List.Perm (LMS.sortedItems val dir items) items
            ∧ (LMS.sortedItems val dir items).Pairwise
                (fun a b => val a = none → val b = none)
            ∧ ∀ v : ℚ,
                (LMS.sortedItems val dir items).filter
                    (fun a => val a = some v)
                  = items.filter (fun a => val a = some v)) := by
  constructor
  · intro st key
    refine ⟨rfl, rfl, ?_, ?_⟩
    · intro hk
      by_cases hd : st.sortDirection = LMS.SortDirection.ascending
      · simp [LMS.requestSort, hk, hd]
      · simp [LMS.requestSort, hk, hd]
    · intro hk
      simp [LMS.requestSort, hk]
  · intro val dir items
    refine ⟨LMS.perm_sortCmp _ _, LMS.nullsLast_sortedItems val dir items, ?_⟩
    intro v
    apply LMS.filter_sortCmp
    intro a b ha hb
    have ha' : val a = some v := of_decide_eq_true ha
    have hb' : val b = some v := of_decide_eq_true hb
    rw [ha', hb']
    simp [LMS.jsCompare, lt_irrefl]

/-- Witness for C8: re-sorting on the already-ascending key `"rank"` flips
to descending, and equal-valued rows keep their input order in a concrete
three-row sort. -/
theorem C8_requestSort_and_sort_witness :
    (LMS.requestSort "rank"
        ({ searchTerm := "", sortKey := some "rank",
           sortDirection := LMS.SortDirection.ascending, currentPage := 3 } :
          LMS.TableState String)).sortDirection = LMS.SortDirection.descending
      ∧ (LMS.sortedItems (fun x : Option ℚ => x) LMS.SortDirection.ascending
            [some 2, none, some 1]).filter (fun a => a = some (2 : ℚ))
          = ([some 2, none, some 1] : List (Option ℚ)).filter
              (fun a => a = some (2 : ℚ)) := by
  constructor
  · have h := (C8_requestSort_and_sort (κ := String) (α := Option ℚ)).1
      ({ searchTerm := "", sortKey := some "rank",
         sortDirection := LMS.SortDirection.ascending, currentPage := 3 } :
        LMS.TableState String) "rank"
    simpa using h.2.2.1 rfl
  · exact ((C8_requestSort_and_sort (κ := String) (α := Option ℚ)).2
      (fun x => x) LMS.SortDirection.ascending [some 2, none, some 1]).2.2 2

/-- C9: `pageCount` is the ceiling of the row count over the page size with
a minimum of 1; the exposed current page always lies in `[1, pageCount]`
and every page operation keeps the stored page at least 1; with 12 rows and
page size 10 the page count is 2, and after `nextPage()` a re-derivation
over 5 rows clamps the exposed page back to 1. -/
theorem C9_pagination (len rpp p x : ℕ) (hrpp : 1 ≤ rpp) (hp : 1 ≤ p) :
    LMS.pageCount len rpp = max 1 (Nat.ceil ((len : ℚ) / (rpp : ℚ)))
      ∧ 1 ≤ LMS.actualCurrentPage p (LMS.pageCount len rpp)
      ∧ LMS.actualCurrentPage p (LMS.pageCount len rpp) ≤ LMS.pageCount len rpp
      ∧ 1 ≤ LMS.nextPage (LMS.pageCount len rpp) p
      ∧ 1 ≤ LMS.prevPage p
      ∧ 1 ≤ LMS.setPage (LMS.pageCount len rpp) x
      ∧ LMS.pageCount 12 10 = 2
      ∧ LMS.actualCurrentPage (LMS.nextPage (LMS.pageCount 12 10) 1)
          (LMS.pageCount 5 10) = 1 := by
  have hpc1 : 1 ≤ LMS.pageCount len rpp := by
    rw [LMS.pageCount]
    by_cases hd : (len + rpp - 1) / rpp = 0
    · simp [hd]
    · rw [if_neg hd]
      exact Nat.pos_of_ne_zero hd
  refine ⟨LMS.pageCount_spec len rpp hrpp, ?_, ?_, ?_, ?_, ?_, by decide,
    by decide⟩
  · unfold LMS.actualCurrentPage
    omega
  · unfold LMS.actualCurrentPage
    omega
  · unfold LMS.nextPage
    omega
  · unfold LMS.prevPage
    omega
  · unfold LMS.setPage
    omega

/-- Witness for C9 at 12 rows, page size 10, page 1: page count 2, and the
5-row re-derivation clamps the exposed page to 1. -/
theorem C9_pagination_witness :
    LMS.pageCount 12 10 = max 1 (Nat.ceil ((12 : ℚ) / (10 : ℚ)))
      ∧ LMS.actualCurrentPage (LMS.nextPage (LMS.pageCount 12 10) 1)
          (LMS.pageCount 5 10) = 1 := by
  have h := C9_pagination 12 10 1 1 (by decide) (by decide)
  exact ⟨h.1, h.2.2.2.2.2.2.2⟩
